import Mathlib

/-!
Shallow embedding of `src/update_notes/processor.py` (HiroshiOkada/update-notes).

Pure parts of the program (section splitting, image-reference extraction,
output-content computation, image-copy resolution, filename/date parsing,
sorting, per-heading merging) are translated into executable Lean functions.
Filesystem effects are made explicit: file contents are passed as strings, the
set of existing files is a list of path strings, and the per-file relocation
outcome is an oracle `String → Bool`.  Python dicts are modelled as
insertion-ordered association lists, Python sets as lists up to membership.
Whitespace and digit classes are modelled over their ASCII fragment.
-/

namespace UpdateNotes

/-- Python whitespace (`str.strip`, `str.rstrip`, regex class backslash-s),
restricted to the ASCII whitespace characters. -/
def isPyWS (c : Char) : Bool :=
  c = ' ' || c = '\t' || c = '\n' || c = '\r' || c = '\x0b' || c = '\x0c'

/-- Python `line.strip() == ""`: every character of the line is whitespace. -/
def isBlankLine (s : String) : Bool := s.data.all isPyWS

/-- Number of leading hash marks of a line. -/
def hashCount : List Char → Nat
  | '#' :: rest => hashCount rest + 1
  | _ => 0

/-- Processor line 110: `re.compile(r'^(#{1,6}\s+.+)$', re.MULTILINE)` matched
with `.match` against one newline-free line: one to six leading hash marks,
then a whitespace character, then at least one further character (the regex
dot also matches whitespace, so only the count matters). -/
def isHeading (line : String) : Bool :=
  let h := hashCount line.data
  if 1 ≤ h ∧ h ≤ 6 then
    match line.data.drop h with
    | c :: _ :: _ => isPyWS c
    | _ => false
  else false

/-- Python `s.split(sep)` for a one-character separator: auxiliary accumulator
form, structural in the remaining characters. -/
def splitCharAux (sep : Char) : List Char → List Char → List String
  | [], cur => [String.mk cur.reverse]
  | c :: cs, cur =>
    if c = sep then String.mk cur.reverse :: splitCharAux sep cs []
    else splitCharAux sep cs (c :: cur)

/-- Python `content.split('\n')` (processor line 118). -/
def splitLines (s : String) : List String := splitCharAux '\n' s.data []

/-- Lookup in an insertion-ordered association list (Python dict access). -/
def lookupH (k : String) : List (String × List String) → Option (List String)
  | [] => none
  | (k₀, v) :: rest => if k₀ = k then some v else lookupH k rest

/-- Python `sections[cur].append(line)` (processor line 127); the key is
always present at every call site. -/
def appendLine (cur line : String) : List (String × List String) → List (String × List String)
  | [] => []
  | (k₀, v) :: rest =>
    if k₀ = cur then (k₀, v ++ [line]) :: rest
    else (k₀, v) :: appendLine cur line rest

/-- Processor lines 123-124 and 60-61: `if h not in m: m[h] = []`; Python dict
insertion appends the new key at the end of the iteration order. -/
def insertIfAbsent (h : String) (m : List (String × List String)) : List (String × List String) :=
  if lookupH h m = none then m ++ [(h, [])] else m

/-- Python `acc[h].extend(c)` (processor line 65). -/
def extendAt (h : String) (c : List String) : List (String × List String) → List (String × List String)
  | [] => []
  | (k₀, v) :: rest =>
    if k₀ = h then (k₀, v ++ c) :: rest
    else (k₀, v) :: extendAt h c rest

/-- Processor line 114: the default heading for content before the first
heading line. -/
def defaultHeading : String := "# はじめに"

/-- The line loop of `process_file` (processor lines 118-127). -/
def scanLines : List String → String → List (String × List String) → List (String × List String)
  | [], _, m => m
  | line :: rest, cur, m =>
    if isHeading line then scanLines rest line (insertIfAbsent line m)
    else scanLines rest cur (appendLine cur line m)

/-- Sections of one file before date tagging (processor lines 113-127). -/
def splitRaw (content : String) : List (String × List String) :=
  scanLines (splitLines content) defaultHeading [(defaultHeading, [])]

/-- The body update of the date-tagging pass (processor lines 129-134): a
section body with some non-blank line gets the two-line date marker prepended
and one blank line appended; a blank-only or empty body is left unmodified. -/
def tagBody (ds : String) (v : List String) : List String :=
  if !v.isEmpty && !(v.all isBlankLine) then ["## " ++ ds, ""] ++ v ++ [""] else v

/-- The date-tagging pass applied to every section (processor
lines 129-134). -/
def tagSections (ds : String) (m : List (String × List String)) : List (String × List String) :=
  m.map fun p => (p.1, tagBody ds p.2)

/-- Splits a character list at the first occurrence of `c`: the characters
before it and the characters after it. -/
def splitFirst (c : Char) : List Char → Option (List Char × List Char)
  | [] => none
  | x :: xs =>
    if x = c then some ([], xs)
    else
      match splitFirst c xs with
      | some (a, b) => some (x :: a, b)
      | none => none

/-- One attempted match of the inline-image regex (processor line 152)
at the current position: returns the raw target (regex group 2) and the
characters after the match.  The character classes exclude their closing
delimiter, so the regex deterministically matches up to the first closing
bracket and the first closing parenthesis. -/
def tryMd : List Char → Option (List Char × List Char)
  | '!' :: '[' :: rest =>
    (match splitFirst ']' rest with
     | some (_, '(' :: rest₂) =>
       (match splitFirst ')' rest₂ with
        | some (tgt, rest₃) => if tgt = [] then none else some (tgt, rest₃)
        | none => none)
     | _ => none)
  | _ => none

/-- One attempted match of the wiki-image regex (processor line 153) at the
current position: the target must be nonempty, contain no closing bracket, and
be terminated by a double closing bracket. -/
def tryWiki : List Char → Option (List Char × List Char)
  | '!' :: '[' :: '[' :: rest =>
    (match splitFirst ']' rest with
     | some (tgt, ']' :: rest₂) => if tgt = [] then none else some (tgt, rest₂)
     | _ => none)
  | _ => none

/-- Python `re.finditer` scan for the inline-image pattern: on a match the
scan resumes after the match, otherwise it advances one character.  The fuel
argument (initially the input length) only ensures structural recursion; a
successful match always consumes at least one character, so the fuel never
runs out. -/
def mdScanAux : Nat → List Char → List (List Char)
  | 0, _ => []
  | _, [] => []
  | fuel + 1, x :: xs =>
    match tryMd (x :: xs) with
    | some (tgt, rest) => tgt :: mdScanAux fuel rest
    | none => mdScanAux fuel xs

/-- All raw inline-image targets of a text, leftmost first (processor
lines 158-159). -/
def mdScan (l : List Char) : List (List Char) := mdScanAux l.length l

/-- Python `re.finditer` scan for the wiki-image pattern, analogous fuel form. -/
def wikiScanAux : Nat → List Char → List (List Char)
  | 0, _ => []
  | _, [] => []
  | fuel + 1, x :: xs =>
    match tryWiki (x :: xs) with
    | some (tgt, rest) => tgt :: wikiScanAux fuel rest
    | none => wikiScanAux fuel xs

/-- All wiki-image targets of a text, leftmost first (processor
lines 168-169). -/
def wikiScan (l : List Char) : List (List Char) := wikiScanAux l.length l

/-- The characters before the first occurrence of `c` (the whole list when `c`
is absent): Python `s.split(c)[0]`. -/
def takeBefore (c : Char) (l : List Char) : List Char :=
  match splitFirst c l with
  | some (a, _) => a
  | none => l

/-- Processor line 161: `image_path.split('#')[0].split('?')[0]`. -/
def stripFQ (s : String) : String := String.mk (takeBefore '?' (takeBefore '#' s.data))

/-- Occurrence of `p` as a contiguous sublist of the second argument. -/
def containsSub (p : List Char) : List Char → Bool
  | [] => p.isEmpty
  | x :: xs => p.isPrefixOf (x :: xs) || containsSub p xs

/-- Python `sub in s` for strings: substring containment. -/
def containsStr (sub s : String) : Bool := containsSub sub.data s.data

/-- The inline-syntax contributions of `find_image_references` (processor
lines 158-165): each raw target is fragment/query-stripped and then discarded
when it still contains a scheme separator. -/
def mdRefs (content : String) : List String :=
  ((mdScan content.data).map fun t => stripFQ (String.mk t)).filter
    fun t => !containsStr "://" t

/-- The wiki-syntax contributions of `find_image_references` (processor
lines 168-171): targets are added verbatim. -/
def wikiRefs (content : String) : List String :=
  (wikiScan content.data).map String.mk

/-- Processor lines 142-173.  Python accumulates both loops into one set; the
set is modelled as the list of insertions, set semantics being list
membership. -/
def find_image_references (content : String) : List String :=
  mdRefs content ++ wikiRefs content

/-- Characters of a line with the trailing whitespace run removed. -/
def dropTrailingWS (l : List Char) : List Char := (l.reverse.dropWhile isPyWS).reverse

/-- Python `s.rstrip()` over its ASCII fragment (processor line 265). -/
def rstrip (s : String) : String := String.mk (dropTrailingWS s.data)

/-- Python `'\n'.join(ls)`. -/
def joinNL : List String → String
  | [] => ""
  | [l] => l
  | l :: ls => l ++ "\n" ++ joinNL ls

/-- The append branch of `write_output_files` for one heading (processor
lines 262-276): the existing text is right-stripped, and the heading line is
re-inserted only when `heading + '\n'` does not occur in that stripped text. -/
def appendContent (heading : String) (content : List String) (existing : String) : String :=
  let e := rstrip existing
  if containsStr (heading ++ "\n") e then e ++ "\n\n" ++ joinNL content
  else e ++ "\n\n" ++ joinNL ([heading] ++ [""] ++ content)

/-- Content of the output file for one heading after one writer run
(processor lines 247-284).  `existing` is the file's prior content, `none`
when the file does not exist; the result is `none` exactly when no file is
written and none existed.  Empty or blank-only content is skipped, leaving
the file untouched. -/
def writeHeadingFile (heading : String) (content : List String) (existing : Option String) :
    Option String :=
  if content.isEmpty || content.all isBlankLine then existing
  else
    match existing with
    | some t => some (appendContent heading content t)
    | none => some (joinNL ([heading] ++ [""] ++ content))

/-- Processor line 190. -/
def image_extensions : List String := [".png", ".jpg", ".jpeg", ".gif", ".bmp", ".svg", ".webp"]

/-- Python `PurePath(ref).name` for POSIX-style relative references: the last
path component, with empty and single-dot components dropped. -/
def lastName (ref : String) : String :=
  (((splitCharAux '/' ref.data []).filter fun s => decide (s ≠ "" ∧ s ≠ "."))).getLastD ""

/-- Python `PurePath(ref).suffix`: the extension of the last component, empty
when the last component has no interior dot. -/
def suffixOf (ref : String) : String :=
  match splitFirst '.' (lastName ref).data.reverse with
  | some (ext, restRev) =>
    if ext = [] ∨ restRev = [] then "" else String.mk ('.' :: ext.reverse)
  | none => ""

/-- One reference's copy resolution in `copy_image_files` (processor
lines 195-228).  `fs` is the list of paths, relative to the input directory,
that exist as regular files.  Result: the source path copied (relative to the
input directory) and the destination filename, or `none` when the reference
is silently skipped. -/
def copyImageRef (fs : List String) (ref : String) : Option (String × String) :=
  if fs.contains ref then some (ref, lastName ref)
  else if suffixOf ref = "" then
    match image_extensions.find? fun ext => fs.contains (ref ++ ext) with
    | some ext => some (ref ++ ext, lastName ref ++ ext)
    | none => none
  else none

/-- Python `calendar`-style leap-year test used by `datetime`. -/
def isLeapYear (y : Nat) : Bool := y % 4 == 0 && (!(y % 100 == 0) || y % 400 == 0)

/-- Days in a month as validated by the `datetime` constructor. -/
def daysInMonth (y m : Nat) : Nat :=
  if m == 2 then (if isLeapYear y then 29 else 28)
  else if m == 4 || m == 6 || m == 9 || m == 11 then 30
  else 31

/-- Validity domain of `datetime(year, month, day)` (processor line 36); a
failing constructor raises `ValueError` and the file is skipped. -/
def validDate (y m d : Nat) : Bool :=
  decide (1 ≤ y ∧ y ≤ 9999 ∧ 1 ≤ m ∧ m ≤ 12 ∧ 1 ≤ d ∧ d ≤ daysInMonth y m)

/-- Numeric value of an ASCII digit. -/
def digitVal (c : Char) : Nat := c.toNat - 48

/-- Processor lines 27-41: the filename pattern `^(\d{4})-(\d{2})-(\d{2})\.md$`
(digits modelled over ASCII) followed by `datetime` validation.  Returns the
sort key encoding the parsed date and the `date_str` rebuilt from the matched
groups (the zero-padded date text of the filename). -/
def parseDailyName (name : String) : Option (Nat × String) :=
  match name.data with
  | [y1, y2, y3, y4, s1, m1, m2, s2, d1, d2, p1, p2, p3] =>
    if y1.isDigit && y2.isDigit && y3.isDigit && y4.isDigit && m1.isDigit && m2.isDigit
        && d1.isDigit && d2.isDigit && (s1 == '-') && (s2 == '-') && (p1 == '.')
        && (p2 == 'm') && (p3 == 'd') then
      let y := digitVal y1 * 1000 + digitVal y2 * 100 + digitVal y3 * 10 + digitVal y4
      let mo := digitVal m1 * 10 + digitVal m2
      let da := digitVal d1 * 10 + digitVal d2
      if validDate y mo da then
        some (y * 10000 + mo * 100 + da, String.mk [y1, y2, y3, y4, s1, m1, m2, s2, d1, d2])
      else none
    else none
  | _ => none

/-- One discovered daily note: sort key, `date_str`, filename, raw content. -/
structure DNote where
  key : Nat
  dateStr : String
  name : String
  content : String
deriving DecidableEq

/-- Insertion step of a stable ascending sort by date key. -/
def insertNote (x : DNote) : List DNote → List DNote
  | [] => [x]
  | y :: ys => if x.key ≤ y.key then x :: y :: ys else y :: insertNote x ys

/-- Processor line 44: `daily_notes.sort(key=lambda x: x[1])`, a stable
ascending sort by parsed date. -/
def sortNotes : List DNote → List DNote
  | [] => []
  | x :: xs => insertNote x (sortNotes xs)

/-- Processor lines 30-41: filename matching and date parsing over the
directory listing, given as (filename, content) pairs. -/
def parseFiles (files : List (String × String)) : List DNote :=
  files.filterMap fun fc =>
    (parseDailyName fc.1).map fun ks => ⟨ks.1, ks.2, fc.1, fc.2⟩

/-- In-memory observable state of one aggregation run: the per-heading
accumulation, the image-reference insertions, the filenames whose relocation
succeeded, and the filenames left in place after a relocation failure. -/
structure RunState where
  acc : List (String × List String)
  refs : List String
  moved : List String
  kept : List String
deriving DecidableEq

/-- The merge loop, processor lines 59-65: every heading of the file is
inserted with an empty list when absent, and its content is appended only
when nonempty and not blank-only. -/
def mergeSections (acc : List (String × List String)) (secs : List (String × List String)) :
    List (String × List String) :=
  secs.foldl
    (fun a p =>
      let a₁ := insertIfAbsent p.1 a
      if !p.2.isEmpty && !(p.2.all isBlankLine) then extendAt p.1 p.2 a₁ else a₁)
    acc

/-- Processor lines 92-139 without the file read: sections of one note (split
and date-tagged) together with its image references. -/
def process_file (content dateStr : String) : List (String × List String) × List String :=
  (tagSections dateStr (splitRaw content), find_image_references content)

/-- The per-file loop of `process_markdown_files` (processor lines 55-83).
`mv` is the relocation oracle: whether moving the named file into the archive
subdirectory succeeds; a failure is caught, the name is recorded as kept in
place, and the loop continues. -/
def runLoop (mv : String → Bool) : List DNote → RunState → RunState
  | [], st => st
  | n :: rest, st =>
    let pf := process_file n.content n.dateStr
    runLoop mv rest
      { acc := mergeSections st.acc pf.1
        refs := st.refs ++ pf.2
        moved := if mv n.name then st.moved ++ [n.name] else st.moved
        kept := if mv n.name then st.kept else st.kept ++ [n.name] }

/-- The pure core of `process_markdown_files` (processor lines 11-89): parse
the directory listing, sort by date, and fold the per-file loop from the
empty state.  The function has no notion of a current date: every validly
named file is processed. -/
def runAggregation (files : List (String × String)) (mv : String → Bool) : RunState :=
  runLoop mv (sortNotes (parseFiles files)) ⟨[], [], [], []⟩

/-! ### Association-list lemmas -/

theorem lookupH_append_single (k h : String) (m : List (String × List String)) :
    lookupH k (m ++ [(h, [])]) =
      match lookupH k m with
      | some v => some v
      | none => if h = k then some ([] : List String) else none := by
  induction m with
  | nil => simp [lookupH]
  | cons p rest ih =>
    obtain ⟨k₀, v⟩ := p
    by_cases hp : k₀ = k
    · simp [lookupH, hp]
    · simpa [lookupH, hp] using ih

theorem lookupH_insertIfAbsent (k h : String) (m : List (String × List String)) :
    lookupH k (insertIfAbsent h m) =
      if h = k then some ((lookupH k m).getD []) else lookupH k m := by
  unfold insertIfAbsent
  by_cases habs : lookupH h m = none
  · rw [if_pos habs, lookupH_append_single]
    by_cases hk : h = k
    · subst hk
      rw [habs]
      simp
    · cases hm : lookupH k m <;> simp [hk, hm]
  · rw [if_neg habs]
    by_cases hk : h = k
    · subst hk
      cases hm : lookupH h m with
      | none => exact absurd hm habs
      | some v => simp [hm]
    · simp [hk]

theorem lookupH_appendLine (k cur x : String) (m : List (String × List String)) :
    lookupH k (appendLine cur x m) =
      if cur = k then (lookupH k m).map (fun v => v ++ [x]) else lookupH k m := by
  induction m with
  | nil => by_cases h : cur = k <;> simp [appendLine, lookupH, h]
  | cons p rest ih =>
    obtain ⟨k₀, v⟩ := p
    by_cases h₀ : k₀ = cur
    · subst h₀
      by_cases hk : k₀ = k
      · subst hk
        simp [appendLine, lookupH]
      · simp [appendLine, lookupH, hk]
    · by_cases hk : k₀ = k
      · subst hk
        have hcur : ¬ (cur = k₀) := fun h => h₀ (Eq.symm h)
        simp [appendLine, lookupH, h₀, hcur]
      · simp [appendLine, lookupH, h₀, hk, ih]

theorem lookupH_extendAt (k h : String) (c : List String) (m : List (String × List String)) :
    lookupH k (extendAt h c m) =
      if h = k then (lookupH k m).map (fun v => v ++ c) else lookupH k m := by
  induction m with
  | nil => by_cases hk : h = k <;> simp [extendAt, lookupH, hk]
  | cons p rest ih =>
    obtain ⟨k₀, v⟩ := p
    by_cases h₀ : k₀ = h
    · subst h₀
      by_cases hk : k₀ = k
      · subst hk
        simp [extendAt, lookupH]
      · simp [extendAt, lookupH, hk]
    · by_cases hk : k₀ = k
      · subst hk
        have hh : ¬ (h = k₀) := fun hx => h₀ (Eq.symm hx)
        simp [extendAt, lookupH, h₀, hh]
      · simp [extendAt, lookupH, h₀, hk, ih]

theorem lookupH_eq_none_iff (k : String) (m : List (String × List String)) :
    lookupH k m = none ↔ k ∉ m.map Prod.fst := by
  induction m with
  | nil => simp [lookupH]
  | cons p rest ih =>
    obtain ⟨k₀, v⟩ := p
    by_cases h₀ : k₀ = k
    · subst h₀
      simp [lookupH]
    · have h₀2 : ¬ (k = k₀) := fun hx => h₀ (Eq.symm hx)
      simp [lookupH, h₀, h₀2, ih]

theorem keys_appendLine (cur x : String) (m : List (String × List String)) :
    (appendLine cur x m).map Prod.fst = m.map Prod.fst := by
  induction m with
  | nil => simp [appendLine]
  | cons p rest ih =>
    obtain ⟨k₀, v⟩ := p
    by_cases h₀ : k₀ = cur <;> simp [appendLine, h₀, ih]

theorem keys_extendAt (h : String) (c : List String) (m : List (String × List String)) :
    (extendAt h c m).map Prod.fst = m.map Prod.fst := by
  induction m with
  | nil => simp [extendAt]
  | cons p rest ih =>
    obtain ⟨k₀, v⟩ := p
    by_cases h₀ : k₀ = h <;> simp [extendAt, h₀, ih]

theorem keys_insertIfAbsent_nodup (h : String) (m : List (String × List String))
    (hm : (m.map Prod.fst).Nodup) : ((insertIfAbsent h m).map Prod.fst).Nodup := by
  unfold insertIfAbsent
  by_cases habs : lookupH h m = none
  · have hnot : h ∉ m.map Prod.fst := (lookupH_eq_none_iff h m).mp habs
    rw [if_pos habs]
    rw [List.map_append]
    rw [List.nodup_append]
    refine ⟨hm, by simp, ?_⟩
    intro a ha hb
    simp at hb
    subst hb
    exact hnot ha
  · rw [if_neg habs]
    exact hm

theorem keys_scanLines_nodup :
    ∀ (lines : List String) (cur : String) (m : List (String × List String)),
      (m.map Prod.fst).Nodup → ((scanLines lines cur m).map Prod.fst).Nodup := by
  intro lines
  induction lines with
  | nil => intro cur m hm; simpa [scanLines] using hm
  | cons line rest ih =>
    intro cur m hm
    by_cases hl : isHeading line
    · simp only [scanLines, hl, if_pos]
      exact ih line _ (keys_insertIfAbsent_nodup line m hm)
    · simp only [scanLines, hl, if_neg, Bool.false_eq_true, ite_false]
      exact ih cur _ (by rw [keys_appendLine]; exact hm)

theorem splitRaw_keys_nodup (content : String) :
    ((splitRaw content).map Prod.fst).Nodup := by
  unfold splitRaw
  exact keys_scanLines_nodup _ _ _ (by simp)

theorem keys_tagSections (ds : String) (m : List (String × List String)) :
    (tagSections ds m).map Prod.fst = m.map Prod.fst := by
  simp [tagSections]

theorem lookupH_tagSections (k ds : String) (m : List (String × List String)) :
    lookupH k (tagSections ds m) = (lookupH k m).map (tagBody ds) := by
  induction m with
  | nil => simp [tagSections, lookupH]
  | cons p rest ih =>
    obtain ⟨k₀, v⟩ := p
    by_cases h₀ : k₀ = k
    · simp [tagSections, lookupH, h₀]
    · simpa [tagSections, lookupH, h₀] using ih

/-! ### Merge lemmas -/

theorem mergeSections_nil (acc : List (String × List String)) :
    mergeSections acc [] = acc := rfl

theorem mergeSections_cons (acc : List (String × List String)) (p : String × List String)
    (rest : List (String × List String)) :
    mergeSections acc (p :: rest) =
      mergeSections
        (if !p.2.isEmpty && !(p.2.all isBlankLine) then extendAt p.1 p.2 (insertIfAbsent p.1 acc)
         else insertIfAbsent p.1 acc)
        rest := rfl

theorem lookupH_cons_ne {H k₀ : String} (v : List String) (rest : List (String × List String))
    (h : ¬ (k₀ = H)) : lookupH H ((k₀, v) :: rest) = lookupH H rest := by
  simp [lookupH, h]

theorem merge_lookup_of_absent (H : String) :
    ∀ (secs acc : List (String × List String)), lookupH H secs = none →
      lookupH H (mergeSections acc secs) = lookupH H acc := by
  intro secs
  induction secs with
  | nil => intro acc _; rfl
  | cons p rest ih =>
    intro acc hnone
    obtain ⟨k₀, v⟩ := p
    have hk : ¬ (k₀ = H) := by
      intro h
      simp [lookupH, h] at hnone
    have hrest : lookupH H rest = none := by
      simpa [lookupH, hk] using hnone
    rw [mergeSections_cons]
    rw [ih _ hrest]
    by_cases hv : (!v.isEmpty && !(v.all isBlankLine)) = true
    · rw [if_pos hv]
      rw [lookupH_extendAt, if_neg hk, lookupH_insertIfAbsent, if_neg hk]
    · rw [if_neg hv]
      rw [lookupH_insertIfAbsent, if_neg hk]

theorem merge_lookup_of_present (H : String) :
    ∀ (secs acc : List (String × List String)) (c : List String),
      (secs.map Prod.fst).Nodup → lookupH H secs = some c →
      (!c.isEmpty && !(c.all isBlankLine)) = true →
      lookupH H (mergeSections acc secs) = some ((lookupH H acc).getD [] ++ c) := by
  intro secs
  induction secs with
  | nil => intro acc c _ hsome; simp [lookupH] at hsome
  | cons p rest ih =>
    intro acc c hnodup hsome hc
    obtain ⟨k₀, v⟩ := p
    rw [List.map_cons] at hnodup
    have hpair := List.nodup_cons.mp hnodup
    by_cases hk : k₀ = H
    · subst hk
      have hv : v = c := by simpa [lookupH] using hsome
      subst hv
      have hrest : lookupH k₀ rest = none := (lookupH_eq_none_iff k₀ rest).mpr hpair.1
      rw [mergeSections_cons]
      rw [if_pos hc]
      rw [merge_lookup_of_absent k₀ _ _ hrest]
      rw [lookupH_extendAt, if_pos rfl, lookupH_insertIfAbsent, if_pos rfl]
      simp
    · have hrest : lookupH H rest = some c := by
        simpa [lookupH, hk] using hsome
      rw [mergeSections_cons]
      have hstep :
          lookupH H
              (if !v.isEmpty && !(v.all isBlankLine) then extendAt k₀ v (insertIfAbsent k₀ acc)
               else insertIfAbsent k₀ acc) = lookupH H acc := by
        by_cases hv : (!v.isEmpty && !(v.all isBlankLine)) = true
        · rw [if_pos hv]
          rw [lookupH_extendAt, if_neg hk, lookupH_insertIfAbsent, if_neg hk]
        · rw [if_neg hv]
          rw [lookupH_insertIfAbsent, if_neg hk]
      rw [ih _ c hpair.2 hrest hc, hstep]

/-! ### Blank-entry invariant lemmas (claim C3) -/

/-- The accumulation invariant: blank-only values are empty. -/
def accGood (m : List (String × List String)) : Prop :=
  ∀ p ∈ m, p.2.all isBlankLine = true → p.2 = []

theorem accGood_insertIfAbsent (h : String) (m : List (String × List String))
    (hm : accGood m) : accGood (insertIfAbsent h m) := by
  unfold insertIfAbsent
  by_cases habs : lookupH h m = none
  · rw [if_pos habs]
    intro p hp hblank
    rcases List.mem_append.mp hp with hin | hone
    · exact hm p hin hblank
    · have he : p = (h, []) := List.mem_singleton.mp hone
      subst he
      rfl
  · rw [if_neg habs]
    exact hm

theorem accGood_extendAt (h : String) (c : List String) (m : List (String × List String))
    (hm : accGood m) (hc : c.all isBlankLine = false) : accGood (extendAt h c m) := by
  induction m with
  | nil => intro p hp; simp [extendAt] at hp
  | cons q rest ih =>
    obtain ⟨k₀, v⟩ := q
    have hq : accGood rest := fun p hp => hm p (List.mem_cons_of_mem _ hp)
    by_cases h₀ : k₀ = h
    · intro p hp hblank
      rw [extendAt, if_pos h₀] at hp
      rcases List.mem_cons.mp hp with he | hin
      · subst he
        exfalso
        rw [List.all_append, hc, Bool.and_false] at hblank
        exact Bool.false_ne_true hblank
      · exact hq p hin hblank
    · intro p hp hblank
      rw [extendAt, if_neg h₀] at hp
      rcases List.mem_cons.mp hp with he | hin
      · subst he
        exact hm (k₀, v) (List.mem_cons_self _ _) hblank
      · exact ih hq p hin hblank

theorem accGood_merge (secs : List (String × List String)) :
    ∀ (acc : List (String × List String)), accGood acc → accGood (mergeSections acc secs) := by
  induction secs with
  | nil => intro acc h; exact h
  | cons p rest ih =>
    intro acc hacc
    rw [mergeSections_cons]
    by_cases hv : (!p.2.isEmpty && !(p.2.all isBlankLine)) = true
    · rw [if_pos hv]
      have hc : p.2.all isBlankLine = false := by
        cases hall : p.2.all isBlankLine
        · rfl
        · rw [hall] at hv
          simp at hv
      exact ih _ (accGood_extendAt _ _ _ (accGood_insertIfAbsent _ _ hacc) hc)
    · rw [if_neg hv]
      exact ih _ (accGood_insertIfAbsent _ _ hacc)

theorem accGood_runLoop (mv : String → Bool) :
    ∀ (notes : List DNote) (st : RunState), accGood st.acc → accGood (runLoop mv notes st).acc := by
  intro notes
  induction notes with
  | nil => intro st h; exact h
  | cons n rest ih =>
    intro st hst
    exact ih _ (accGood_merge _ _ hst)

/-! ### Scan lemmas (claims C5, C10) -/

theorem appendLine_single (cur l : String) (v : List String) :
    appendLine cur l [(cur, v)] = [(cur, v ++ [l])] := by
  simp [appendLine]

theorem scanLines_no_heading :
    ∀ (lines : List String), (∀ l ∈ lines, isHeading l = false) →
      ∀ (cur : String) (v : List String),
        scanLines lines cur [(cur, v)] = [(cur, v ++ lines)] := by
  intro lines
  induction lines with
  | nil => intro _ cur v; simp [scanLines]
  | cons l rest ih =>
    intro hno cur v
    have hl : isHeading l = false := hno l (List.mem_cons_self _ _)
    have hrest : ∀ x ∈ rest, isHeading x = false := fun x hx => hno x (List.mem_cons_of_mem _ hx)
    simp only [scanLines, hl, Bool.false_eq_true, ite_false]
    rw [appendLine_single, ih hrest]
    simp

theorem scan_lookup_isSome (S : String) :
    ∀ (lines : List String) (cur : String) (m : List (String × List String)),
      (lookupH S m).isSome = true → (lookupH S (scanLines lines cur m)).isSome = true := by
  intro lines
  induction lines with
  | nil => intro cur m h; simpa [scanLines] using h
  | cons l rest ih =>
    intro cur m h
    by_cases hl : isHeading l
    · simp only [scanLines, hl, if_pos]
      refine ih l _ ?_
      rw [lookupH_insertIfAbsent]
      by_cases he : l = S
      · simp [he]
      · simpa [he] using h
    · simp only [scanLines, hl, Bool.false_eq_true, ite_false]
      refine ih cur _ ?_
      rw [lookupH_appendLine]
      by_cases he : cur = S
      · simpa [he, Option.isSome_map] using h
      · simpa [he] using h

theorem scan_lookup_untouched (S : String) :
    ∀ (lines : List String) (cur : String) (m : List (String × List String)),
      ¬ (cur = S) → (∀ l ∈ lines, isHeading l = true → ¬ (l = S)) →
      lookupH S (scanLines lines cur m) = lookupH S m := by
  intro lines
  induction lines with
  | nil => intro cur m _ _; rfl
  | cons l rest ih =>
    intro cur m hcur hno
    have hrest : ∀ x ∈ rest, isHeading x = true → ¬ (x = S) :=
      fun x hx => hno x (List.mem_cons_of_mem _ hx)
    by_cases hl : isHeading l
    · have hlS : ¬ (l = S) := hno l (List.mem_cons_self _ _) hl
      simp only [scanLines, hl, if_pos]
      rw [ih l _ hlS hrest, lookupH_insertIfAbsent, if_neg hlS]
    · simp only [scanLines, hl, Bool.false_eq_true, ite_false]
      rw [ih cur _ hcur hrest, lookupH_appendLine, if_neg hcur]

/-! ### Run-loop lemmas (claim C8) -/

theorem runLoop_acc_refs_independent (mv₁ mv₂ : String → Bool) :
    ∀ (notes : List DNote) (st₁ st₂ : RunState), st₁.acc = st₂.acc → st₁.refs = st₂.refs →
      (runLoop mv₁ notes st₁).acc = (runLoop mv₂ notes st₂).acc ∧
      (runLoop mv₁ notes st₁).refs = (runLoop mv₂ notes st₂).refs := by
  intro notes
  induction notes with
  | nil => intro st₁ st₂ ha hr; exact ⟨ha, hr⟩
  | cons n rest ih =>
    intro st₁ st₂ ha hr
    exact ih _ _ (by rw [ha]) (by rw [hr])

theorem runLoop_kept_mono (mv : String → Bool) :
    ∀ (notes : List DNote) (st : RunState) (x : String),
      x ∈ st.kept → x ∈ (runLoop mv notes st).kept := by
  intro notes
  induction notes with
  | nil => intro st x h; exact h
  | cons n rest ih =>
    intro st x h
    refine ih _ x ?_
    by_cases hm : mv n.name <;> simp [hm, h]

theorem joinNL_cons_cons (h : String) (c : List String) (hc : c ≠ []) :
    joinNL (h :: "" :: c) = h ++ "\n\n" ++ joinNL c := by
  cases c with
  | nil => exact absurd rfl hc
  | cons x xs =>
    apply String.ext
    have h1 : ("\n" : String).data = ['\n'] := rfl
    have h2 : ("\n\n" : String).data = ['\n', '\n'] := rfl
    have h3 : ("" : String).data = [] := rfl
    simp [joinNL, String.data_append, h1, h2, h3]

theorem dropTrailingWS_isPre (l : List Char) : dropTrailingWS l <+: l := by
  have h : l = dropTrailingWS l ++ (l.reverse.takeWhile isPyWS).reverse := by
    rw [dropTrailingWS, ← List.reverse_append, List.takeWhile_append_dropWhile,
      List.reverse_reverse]
  conv_rhs => rw [h]
  exact List.prefix_append _ _

theorem find?_append_all_neg {α : Type} (p : α → Bool) :
    ∀ (pre post : List α), (∀ e ∈ pre, p e = false) →
      List.find? p (pre ++ post) = List.find? p post := by
  intro pre
  induction pre with
  | nil => intro post _; rfl
  | cons a rest ih =>
    intro post hall
    have ha : p a = false := hall a (List.mem_cons_self _ _)
    rw [List.cons_append, List.find?_cons_of_neg _ (by simp [ha])]
    exact ih post fun e he => hall e (List.mem_cons_of_mem _ he)

theorem runLoop_kept_of_failure (mv : String → Bool) :
    ∀ (notes : List DNote) (st : RunState) (n : DNote),
      n ∈ notes → mv n.name = false → n.name ∈ (runLoop mv notes st).kept := by
  intro notes
  induction notes with
  | nil => intro st n h; simp at h
  | cons m rest ih =>
    intro st n hmem hfail
    rcases List.mem_cons.mp hmem with he | hin
    · subst he
      refine runLoop_kept_mono mv rest _ n.name ?_
      simp [hfail]
    · exact ih _ n hin hfail

/-! ### Claim theorems -/

/-- C1 (code evidence): the aggregation core has no notion of a current date.
Running it over notes dated 2024-05-01, 2024-05-02 and 2024-05-03 — on a
(hypothetical) execution date of 2024-05-02 — still merges the 2024-05-02
note's sections into the accumulation and relocates its file, so a note dated
"today" is processed, archived, and contributes to output exactly like any
other note. -/
theorem c1_today_note_is_processed :
    lookupH "# 今日"
        (runAggregation
          [("2024-05-01.md", "# 昨日\n内容"), ("2024-05-02.md", "# 今日\n書きかけ"),
           ("2024-05-03.md", "# 未来\n予定")] (fun _ => true)).acc =
      some ["## 2024-05-02", "", "書きかけ", ""] ∧
    "2024-05-02.md" ∈
      (runAggregation
        [("2024-05-01.md", "# 昨日\n内容"), ("2024-05-02.md", "# 今日\n書きかけ"),
         ("2024-05-03.md", "# 未来\n予定")] (fun _ => true)).moved := by
  exact ⟨by decide, by decide⟩

/-- C2 (counterexample): two successive writer runs on the same heading where
the earlier run wrote content with a trailing space.  The later run
right-strips the existing text, so the file content after the later run no
longer contains the earlier run's content as a substring: previously written
content is not preserved unconditionally. -/
theorem c2_counterexample_trailing_ws :
    writeHeadingFile "# H" ["x "] none = some "# H\n\nx " ∧
    writeHeadingFile "# H" ["y"] (some "# H\n\nx ") = some "# H\n\nx\n\ny" ∧
    containsStr "# H\n\nx " "# H\n\nx\n\ny" = false := by
  exact ⟨by decide, by decide, by decide⟩

/-- C2 (amended): across runs the Output Writer preserves the existing file
content up to removal of trailing whitespace: the right-stripped prior
content is always a prefix of the file's new content (a skipped heading
leaves the file unchanged, of which the stripped text is also a prefix);
apart from that trailing whitespace, prior runs' data is never discarded. -/
theorem c2_amended_rstrip_is_preserved (h : String) (c : List String) (t : String) :
    (rstrip t).data.isPrefixOf ((writeHeadingFile h c (some t)).getD "").data = true := by
  rw [ List.isPrefixOf_iff_prefix]
  unfold writeHeadingFile
  by_cases hskip : (c.isEmpty || c.all isBlankLine) = true
  · rw [if_pos hskip]
    exact dropTrailingWS_isPre t.data
  · rw [if_neg hskip]
    show (rstrip t).data <+:
      (if containsStr (h ++ "\n") (rstrip t) = true then rstrip t ++ "\n\n" ++ joinNL c
       else rstrip t ++ "\n\n" ++ joinNL ([h] ++ [""] ++ c)).data
    by_cases hctn : containsStr (h ++ "\n") (rstrip t) = true
    · rw [if_pos hctn]
      rw [String.data_append, String.data_append, List.append_assoc]
      exact List.prefix_append _ _
    · rw [if_neg hctn]
      rw [String.data_append, String.data_append, List.append_assoc]
      exact List.prefix_append _ _

/-- C3 (counterexample): one run over a single note whose only body text sits
under the heading `# A`.  The default sentinel heading is inserted into the
accumulation with an empty body (it is keyed before the non-emptiness check),
so the final map handed to the Output Writer does contain an entry whose
value is empty. -/
theorem c3_counterexample_empty_entry :
    lookupH defaultHeading
        (runAggregation [("2024-01-01.md", "# A\nx")] (fun _ => true)).acc = some [] := by
  decide

/-- C3 (amended): the HeadingAccumulation never contains a nonempty entry
consisting only of blank lines — every entry's value is either the empty
list (possible, and skipped by the Output Writer) or contains at least one
non-blank line. -/
theorem c3_amended_no_blank_only_entry (files : List (String × String)) (mv : String → Bool)
    (p : String × List String) (hp : p ∈ (runAggregation files mv).acc)
    (hblank : p.2.all isBlankLine = true) : p.2 = [] := by
  refine accGood_runLoop mv _ _ ?_ p hp hblank
  intro q hq
  simp at hq

theorem c3_amended_no_blank_only_entry_witness :
    (defaultHeading, ([] : List String)) ∈
      (runAggregation [("2024-01-01.md", "# A\nx")] (fun _ => true)).acc ∧
    (defaultHeading, ([] : List String)).2 = [] :=
  ⟨by decide,
   c3_amended_no_blank_only_entry [("2024-01-01.md", "# A\nx")] (fun _ => true)
     (defaultHeading, []) (by decide) (by decide)⟩

/-- C4 (counterexample): a wiki-style embed whose target contains a scheme
separator is added verbatim, so the extractor's result does contain a
reference with `://`. -/
theorem c4_counterexample_wiki_scheme :
    find_image_references "![[http://a]]" = ["http://a"] ∧
    containsStr "://" "http://a" = true := by
  exact ⟨by decide, by decide⟩

/-- C4 (amended): references derived from the inline syntax never contain a
scheme separator (an inline target that still contains `://` after
fragment/query stripping is discarded), and every inline target whose
stripped form lacks `://` appears stripped in the result; wiki-style embed
targets are included verbatim and unioned with the inline results — so only
wiki-derived references may contain `://`. -/
theorem c4_amended_scheme_filtering (content r : String) :
    (r ∈ find_image_references content → containsStr "://" r = false ∨ r ∈ wikiRefs content) ∧
    (r ∈ wikiRefs content → r ∈ find_image_references content) ∧
    (∀ raw ∈ mdScan content.data, containsStr "://" (stripFQ (String.mk raw)) = false →
        stripFQ (String.mk raw) ∈ find_image_references content) := by
  refine ⟨?_, ?_, ?_⟩
  · intro hr
    rcases List.mem_append.mp hr with hmd | hwiki
    · left
      have hfil := (List.mem_filter.mp hmd).2
      simpa using hfil
    · right
      exact hwiki
  · intro hw
    exact List.mem_append.mpr (Or.inr hw)
  · intro raw hraw hno
    refine List.mem_append.mpr (Or.inl ?_)
    refine List.mem_filter.mpr ⟨List.mem_map.mpr ⟨raw, hraw, rfl⟩, ?_⟩
    simp [hno]

theorem c4_amended_scheme_filtering_witness :
    "images/a.jpg" ∈ find_image_references "![x](images/a.jpg?q=1#f) ![y](http://h/img.gif)" ∧
    (containsStr "://" "images/a.jpg" = false ∨
      "images/a.jpg" ∈ wikiRefs "![x](images/a.jpg?q=1#f) ![y](http://h/img.gif)") :=
  ⟨by decide,
   (c4_amended_scheme_filtering "![x](images/a.jpg?q=1#f) ![y](http://h/img.gif)"
     "images/a.jpg").1 (by decide)⟩

/-- C5 (counterexample): the empty text has no heading lines, yet the Section
Splitter's single sentinel entry is the raw line list `[""]`, not the claimed
date-marker-wrapped body — blank-only bodies are left untagged. -/
theorem c5_counterexample_blank_text :
    (∀ l ∈ splitLines "", isHeading l = false) ∧
    (process_file "" "2024-01-01").1 ≠
      [(defaultHeading, ["## " ++ "2024-01-01", ""] ++ splitLines "" ++ [""])] := by
  exact ⟨by decide, by decide⟩

/-- C5 (amended): for every raw text with no heading lines and at least one
non-blank line, the Section Splitter returns exactly one entry, keyed by the
default sentinel heading, whose body is the two-line date marker, the
original text's lines, and one trailing blank line; for blank-only texts the
single sentinel entry instead keeps the raw lines unmodified — the result is
never an empty mapping. -/
theorem c5_amended_no_heading_single_entry (content ds : String)
    (hno : ∀ l ∈ splitLines content, isHeading l = false) :
    ((splitLines content).all isBlankLine = false →
      (process_file content ds).1 =
        [(defaultHeading, ["## " ++ ds, ""] ++ splitLines content ++ [""])]) ∧
    ((splitLines content).all isBlankLine = true →
      (process_file content ds).1 = [(defaultHeading, splitLines content)]) := by
  have hraw : splitRaw content = [(defaultHeading, splitLines content)] := by
    unfold splitRaw
    have h := scanLines_no_heading (splitLines content) hno defaultHeading []
    simpa using h
  constructor
  · intro hnb
    have hne : (splitLines content).isEmpty = false := by
      cases hl : splitLines content with
      | nil => rw [hl] at hnb; simp at hnb
      | cons a l => rfl
    show tagSections ds (splitRaw content) = _
    rw [hraw]
    unfold tagSections
    simp only [List.map_cons, List.map_nil]
    unfold tagBody
    rw [hne, hnb]
    simp
  · intro hb
    show tagSections ds (splitRaw content) = _
    rw [hraw]
    unfold tagSections
    simp only [List.map_cons, List.map_nil]
    unfold tagBody
    rw [hb]
    simp

theorem c5_amended_no_heading_single_entry_witness :
    (process_file "x" "2024-01-01").1 =
      [(defaultHeading, ["## " ++ "2024-01-01", ""] ++ splitLines "x" ++ [""])] :=
  (c5_amended_no_heading_single_entry "x" "2024-01-01" (by decide)).1 (by decide)

/-- C6: processing two notes dated D1 < D2 that both contain heading `H` with
non-empty (not blank-only) sections — supplied to the run in either order —
yields an accumulated body for `H` equal to D1's date-tagged body followed by
D2's date-tagged body, regardless of any other headings present in either
note. -/
theorem c6_merge_is_ordered_concatenation
    (n1 n2 c1 c2 ds1 ds2 H : String) (k1 k2 : Nat) (b1 b2 : List String)
    (mv : String → Bool) (files : List (String × String))
    (hp1 : parseDailyName n1 = some (k1, ds1))
    (hp2 : parseDailyName n2 = some (k2, ds2))
    (hk : k1 < k2)
    (hfiles : files = [(n1, c1), (n2, c2)] ∨ files = [(n2, c2), (n1, c1)])
    (hb1 : lookupH H (splitRaw c1) = some b1) (hn1 : b1.all isBlankLine = false)
    (hb2 : lookupH H (splitRaw c2) = some b2) (hn2 : b2.all isBlankLine = false) :
    lookupH H (runAggregation files mv).acc =
      some ((["## " ++ ds1, ""] ++ b1 ++ [""]) ++ (["## " ++ ds2, ""] ++ b2 ++ [""])) := by
  have hsort : sortNotes (parseFiles files) = [⟨k1, ds1, n1, c1⟩, ⟨k2, ds2, n2, c2⟩] := by
    have hle : k1 ≤ k2 := Nat.le_of_lt hk
    have hnle : ¬ (k2 ≤ k1) := Nat.not_le.mpr hk
    rcases hfiles with hf | hf <;> subst hf <;>
      simp [parseFiles, hp1, hp2, sortNotes, insertNote, hle, hnle]
  have hne1 : b1.isEmpty = false := by
    cases b1 with
    | nil => simp at hn1
    | cons a l => rfl
  have hne2 : b2.isEmpty = false := by
    cases b2 with
    | nil => simp at hn2
    | cons a l => rfl
  have hcond1 : (!b1.isEmpty && !(b1.all isBlankLine)) = true := by
    rw [hne1, hn1]
    rfl
  have hcond2 : (!b2.isEmpty && !(b2.all isBlankLine)) = true := by
    rw [hne2, hn2]
    rfl
  have htag1 : tagBody ds1 b1 = ["## " ++ ds1, ""] ++ b1 ++ [""] := by
    unfold tagBody
    rw [if_pos hcond1]
  have htag2 : tagBody ds2 b2 = ["## " ++ ds2, ""] ++ b2 ++ [""] := by
    unfold tagBody
    rw [if_pos hcond2]
  have hhdr : ∀ ds : String, isBlankLine ("## " ++ ds) = false := by
    intro ds
    unfold isBlankLine
    rw [String.data_append]
    rw [show ("## " : String).data = ['#', '#', ' '] from rfl]
    rw [List.all_append]
    rw [show (['#', '#', ' ']).all isPyWS = false from by decide]
    rfl
  have hmc : ∀ (ds : String) (b : List String),
      (!((["## " ++ ds, ""] ++ b ++ [""])).isEmpty &&
        !((["## " ++ ds, ""] ++ b ++ [""]).all isBlankLine)) = true := by
    intro ds b
    rw [show (["## " ++ ds, ""] ++ b ++ [""]) = ("## " ++ ds) :: ("" :: (b ++ [""])) from rfl]
    rw [List.all_cons, hhdr ds]
    rfl
  have hsec1 : lookupH H (process_file c1 ds1).1 = some (["## " ++ ds1, ""] ++ b1 ++ [""]) := by
    show lookupH H (tagSections ds1 (splitRaw c1)) = _
    rw [lookupH_tagSections, hb1]
    simp [htag1]
  have hsec2 : lookupH H (process_file c2 ds2).1 = some (["## " ++ ds2, ""] ++ b2 ++ [""]) := by
    show lookupH H (tagSections ds2 (splitRaw c2)) = _
    rw [lookupH_tagSections, hb2]
    simp [htag2]
  have hnodup1 : (((process_file c1 ds1).1).map Prod.fst).Nodup := by
    show ((tagSections ds1 (splitRaw c1)).map Prod.fst).Nodup
    rw [keys_tagSections]
    exact splitRaw_keys_nodup c1
  have hnodup2 : (((process_file c2 ds2).1).map Prod.fst).Nodup := by
    show ((tagSections ds2 (splitRaw c2)).map Prod.fst).Nodup
    rw [keys_tagSections]
    exact splitRaw_keys_nodup c2
  unfold runAggregation
  rw [hsort]
  show lookupH H
      (mergeSections (mergeSections [] (process_file c1 ds1).1) (process_file c2 ds2).1) = _
  rw [merge_lookup_of_present H ((process_file c2 ds2).1) _ _ hnodup2 hsec2 (hmc ds2 b2)]
  rw [merge_lookup_of_present H ((process_file c1 ds1).1) _ _ hnodup1 hsec1 (hmc ds1 b1)]
  rfl

theorem c6_merge_is_ordered_concatenation_witness :
    lookupH "# A"
        (runAggregation [("2024-01-02.md", "# A\ny"), ("2024-01-01.md", "# A\nx")]
          (fun _ => true)).acc =
      some ((["## " ++ "2024-01-01", ""] ++ ["x"] ++ [""]) ++
        (["## " ++ "2024-01-02", ""] ++ ["y"] ++ [""])) :=
  c6_merge_is_ordered_concatenation "2024-01-01.md" "2024-01-02.md" "# A\nx" "# A\ny"
    "2024-01-01" "2024-01-02" "# A" 20240101 20240102 ["x"] ["y"] (fun _ => true)
    [("2024-01-02.md", "# A\ny"), ("2024-01-01.md", "# A\nx")]
    (by decide) (by decide) (by decide) (Or.inr rfl) (by decide) (by decide) (by decide)
    (by decide)

/-- C7: for a heading with non-empty (not blank-only) accumulated content the
Output Writer creates an absent file as the heading line, one blank line,
then the joined content; for an existing file it writes the right-stripped
existing text, two newlines, then just the joined content when the heading
line followed by a line break occurs verbatim in the stripped existing text,
else the heading line, a blank line, and the joined content. -/
theorem c7_output_file_content (h : String) (c : List String) (t : String)
    (hc : (c.isEmpty || c.all isBlankLine) = false) :
    writeHeadingFile h c none = some (h ++ "\n\n" ++ joinNL c) ∧
    (containsStr (h ++ "\n") (rstrip t) = true →
      writeHeadingFile h c (some t) = some (rstrip t ++ "\n\n" ++ joinNL c)) ∧
    (containsStr (h ++ "\n") (rstrip t) = false →
      writeHeadingFile h c (some t) =
        some (rstrip t ++ "\n\n" ++ (h ++ "\n\n" ++ joinNL c))) := by
  have hne : c ≠ [] := by
    intro he
    rw [he] at hc
    simp at hc
  have hjoin : joinNL ([h] ++ [""] ++ c) = h ++ "\n\n" ++ joinNL c := by
    rw [show ([h] ++ [""] ++ c) = h :: "" :: c from rfl]
    exact joinNL_cons_cons h c hne
  have hcfalse : ¬ ((c.isEmpty || c.all isBlankLine) = true) := by
    rw [hc]
    exact Bool.false_ne_true
  refine ⟨?_, ?_, ?_⟩
  · unfold writeHeadingFile
    rw [if_neg hcfalse]
    show some (joinNL ([h] ++ [""] ++ c)) = _
    rw [hjoin]
  · intro hctn
    unfold writeHeadingFile
    rw [if_neg hcfalse]
    show some (appendContent h c t) = _
    unfold appendContent
    show some (if containsStr (h ++ "\n") (rstrip t) = true then rstrip t ++ "\n\n" ++ joinNL c
               else rstrip t ++ "\n\n" ++ joinNL ([h] ++ [""] ++ c)) = _
    rw [if_pos hctn]
  · intro hctn
    unfold writeHeadingFile
    rw [if_neg hcfalse]
    show some (appendContent h c t) = _
    unfold appendContent
    show some (if containsStr (h ++ "\n") (rstrip t) = true then rstrip t ++ "\n\n" ++ joinNL c
               else rstrip t ++ "\n\n" ++ joinNL ([h] ++ [""] ++ c)) = _
    rw [if_neg (by rw [hctn]; exact Bool.false_ne_true)]
    rw [hjoin]

theorem c7_output_file_content_witness :
    writeHeadingFile "# H" ["x"] none = some ("# H" ++ "\n\n" ++ joinNL ["x"]) ∧
    writeHeadingFile "# H" ["x"] (some "# H\nold") =
      some (rstrip "# H\nold" ++ "\n\n" ++ joinNL ["x"]) :=
  ⟨(c7_output_file_content "# H" ["x"] "# H\nold" (by decide)).1,
   (c7_output_file_content "# H" ["x"] "# H\nold" (by decide)).2.1 (by decide)⟩

/-- C8: relocation failures are isolated per file.  The accumulation and the
image-reference set of a run do not depend on the relocation outcomes at all
(so content merged from a file whose move fails is retained and subsequent
files are still processed), and every note whose relocation fails remains
recorded at its original location.  The run is a total function: no
relocation outcome can abort it. -/
theorem c8_relocation_failure_is_isolated (files : List (String × String))
    (mv₁ mv₂ : String → Bool) :
    (runAggregation files mv₁).acc = (runAggregation files mv₂).acc ∧
    (runAggregation files mv₁).refs = (runAggregation files mv₂).refs ∧
    (∀ n ∈ sortNotes (parseFiles files), mv₁ n.name = false →
        n.name ∈ (runAggregation files mv₁).kept) := by
  refine ⟨?_, ?_, ?_⟩
  · exact (runLoop_acc_refs_independent mv₁ mv₂ (sortNotes (parseFiles files))
      ⟨[], [], [], []⟩ ⟨[], [], [], []⟩ rfl rfl).1
  · exact (runLoop_acc_refs_independent mv₁ mv₂ (sortNotes (parseFiles files))
      ⟨[], [], [], []⟩ ⟨[], [], [], []⟩ rfl rfl).2
  · intro n hn hf
    exact runLoop_kept_of_failure mv₁ (sortNotes (parseFiles files)) ⟨[], [], [], []⟩ n hn hf

theorem c8_relocation_failure_is_isolated_witness :
    (runAggregation [("2024-01-01.md", "# A\nx")] (fun _ => false)).acc =
      (runAggregation [("2024-01-01.md", "# A\nx")] (fun _ => true)).acc ∧
    "2024-01-01.md" ∈ (runAggregation [("2024-01-01.md", "# A\nx")] (fun _ => false)).kept :=
  ⟨(c8_relocation_failure_is_isolated [("2024-01-01.md", "# A\nx")] (fun _ => false)
      (fun _ => true)).1,
   (c8_relocation_failure_is_isolated [("2024-01-01.md", "# A\nx")] (fun _ => false)
      (fun _ => true)).2.2 ⟨20240101, "2024-01-01", "2024-01-01.md", "# A\nx"⟩ (by decide) rfl⟩

/-- C9: for a reference with no file extension and no exact match, the Image
Copier probes the fixed extension list in order and copies the first probe
that exists as a file, naming the destination by the reference's final path
component plus that extension; when no probe matches, the reference is
silently skipped (no error, no copy). -/
theorem c9_extension_probe_order (fs : List String) (ref : String) (pre post : List String)
    (ext : String) (hsuf : suffixOf ref = "") (hmiss : fs.contains ref = false) :
    (image_extensions = pre ++ ext :: post →
      (∀ e ∈ pre, fs.contains (ref ++ e) = false) → fs.contains (ref ++ ext) = true →
      copyImageRef fs ref = some (ref ++ ext, lastName ref ++ ext)) ∧
    ((∀ e ∈ image_extensions, fs.contains (ref ++ e) = false) →
      copyImageRef fs ref = none) := by
  constructor
  · intro hdecomp hpre hext
    unfold copyImageRef
    rw [hmiss]
    rw [if_neg Bool.false_ne_true]
    rw [if_pos hsuf]
    rw [hdecomp]
    rw [find?_append_all_neg _ pre _ hpre]
    rw [@List.find?_cons_of_pos _ (fun e => fs.contains (ref ++ e)) ext post hext]
  · intro hall
    unfold copyImageRef
    rw [hmiss]
    rw [if_neg Bool.false_ne_true]
    rw [if_pos hsuf]
    rw [List.find?_eq_none.mpr fun e he => by rw [hall e he]; exact Bool.false_ne_true]

theorem c9_extension_probe_order_witness :
    suffixOf "photo" = "" ∧
    copyImageRef ["photo.jpg"] "photo" = some ("photo" ++ ".jpg", lastName "photo" ++ ".jpg") :=
  ⟨by decide,
   (c9_extension_probe_order ["photo.jpg"] "photo" [".png"]
      [".jpeg", ".gif", ".bmp", ".svg", ".webp"] ".jpg" (by decide) (by decide)).1
     (by decide) (by decide) (by decide)⟩

/-- C10 (counterexample): a text beginning with a heading line — the sentinel
heading itself — with no body text before it.  The sentinel's body is then
the following body text, not the empty list, so the claimed "empty body in
this case" fails. -/
theorem c10_counterexample_sentinel_heading :
    isHeading "# はじめに" = true ∧
    lookupH defaultHeading (process_file "# はじめに\nx" "2024-01-01").1 ≠ some [] := by
  exact ⟨by decide, by decide⟩

/-- C10 (amended): the Section Splitter's result always contains the default
sentinel heading as a key; and when the text begins with a heading line and
no heading line of the text equals the sentinel itself, the sentinel's body
is the empty list (left unmodified rather than removed). -/
theorem c10_amended_sentinel_always_present (content ds : String) :
    (lookupH defaultHeading (process_file content ds).1).isSome = true ∧
    (∀ l₀ ls, splitLines content = l₀ :: ls → isHeading l₀ = true →
      (∀ l ∈ splitLines content, l ≠ defaultHeading) →
      lookupH defaultHeading (process_file content ds).1 = some []) := by
  constructor
  · show (lookupH defaultHeading (tagSections ds (splitRaw content))).isSome = true
    rw [lookupH_tagSections]
    rw [Option.isSome_map']
    unfold splitRaw
    refine scan_lookup_isSome defaultHeading (splitLines content) defaultHeading
      [(defaultHeading, [])] ?_
    simp [lookupH]
  · intro l₀ ls hsplit hl₀ hnone
    have hraw : lookupH defaultHeading (splitRaw content) = some [] := by
      unfold splitRaw
      rw [hsplit]
      have hl₀S : ¬ (l₀ = defaultHeading) := hnone l₀ (by rw [hsplit]; exact List.mem_cons_self _ _)
      show lookupH defaultHeading (scanLines (l₀ :: ls) defaultHeading [(defaultHeading, [])]) =
        some []
      rw [show scanLines (l₀ :: ls) defaultHeading [(defaultHeading, [])] =
          scanLines ls l₀ (insertIfAbsent l₀ [(defaultHeading, [])]) from by
        simp only [scanLines, hl₀, if_pos]]
      rw [scan_lookup_untouched defaultHeading ls l₀ _ hl₀S
        (fun l hl _ => hnone l (by rw [hsplit]; exact List.mem_cons_of_mem _ hl))]
      rw [lookupH_insertIfAbsent, if_neg hl₀S]
      simp [lookupH]
    show lookupH defaultHeading (tagSections ds (splitRaw content)) = some []
    rw [lookupH_tagSections, hraw]
    rfl

theorem c10_amended_sentinel_always_present_witness :
    lookupH defaultHeading (process_file "# A\nx" "2024-01-01").1 = some [] :=
  (c10_amended_sentinel_always_present "# A\nx" "2024-01-01").2 "# A" ["x"] (by decide)
    (by decide) (by decide)

end UpdateNotes
